import Mathlib

/-!
# HDU-KillCourse web configuration service: codec, access gate, handlers, port search

A shallow embedding of `pkg/web/web.go`.  Go strings are Lean `String`s, Go slices are
`List`s (a nil slice is the empty list), a Go map is an association list read with
`List.lookup` (the newest binding of a key shadows the older ones), a nil pointer is `none`,
a Go `error` is `Option String` (`none` is `nil`), and a panicking handler is an explicit
result constructor.
-/

/-! ## The ordered map used for the course table -/

/-- A dynamically typed value stored in the ordered map (`interface{}`): either a Go string
or a value of any other dynamic type (including nil). -/
inductive Value where
  | str (s : String)
  | nonString
  deriving DecidableEq, Repr

/-- Whether a dynamically typed value is a Go string, that is, whether the type assertion
`value.(string)` succeeds on it. -/
def Value.isStr : Value → Bool
  | Value.str _ => true
  | Value.nonString => false

/-- Modelled from the spec: the insertion-ordered map `orderedmap.OrderedMap` comes from a
library outside this repository; only the state that `New`, `Keys`, `Get` and `Set` observe is
kept: the key slice, in order of first insertion, and the key to value map. -/
structure OrderedMap where
  keys : List String
  values : List (String × Value)
  deriving Repr

namespace OrderedMap

/-- Modelled from the spec: the call `orderedmap.New()` of the library: the empty map. -/
def New : OrderedMap := { keys := [], values := [] }

/-- Modelled from the spec: the method `Keys()` of the library: the keys in iteration
order. -/
def Keys (o : OrderedMap) : List String := o.keys

/-- Modelled from the spec: the method `Get(key)` of the library; `none` stands for the
result `(nil, false)` on a key the map does not hold. -/
def Get (o : OrderedMap) (key : String) : Option Value := o.values.lookup key

/-- Modelled from the spec: the method `Set(key, value)` of the library: a new key is appended
to the key slice, an existing key keeps its position of first insertion; the value is stored
under the key either way. -/
def Set (o : OrderedMap) (key : String) (value : Value) : OrderedMap :=
  { keys := if (o.values.lookup key).isSome then o.keys else o.keys ++ [key],
    values := (key, value) :: o.values }

/-- The data-model invariant of an ordered map: keys are unique and the key slice lists
exactly the keys that the value map holds. -/
def WF (o : OrderedMap) : Prop :=
  o.keys.Nodup ∧ (∀ k ∈ o.keys, (o.Get k).isSome = true) ∧ (∀ p ∈ o.values, p.1 ∈ o.keys)

instance (o : OrderedMap) : Decidable o.WF := by
  unfold WF; exact inferInstance

/-- Every value the map holds is a Go string. -/
def StringValued (o : OrderedMap) : Prop :=
  ∀ p ∈ o.values, p.2.isStr = true

instance (o : OrderedMap) : Decidable o.StringValued := by
  unfold StringValued; exact inferInstance

end OrderedMap

/-! ## The ordered-pair codec -/

/-- The loop of `orderedMapToArrayList`: `result` is the slice built so far; the type
assertion `value.(string)` panics (`none`) on a missing key or a non-string value. -/
def orderedMapToArrayList.loop (omap : OrderedMap) :
    List String → List (List String) → Option (List (List String))
  | [], result => some result
  | key :: rest, result =>
    match omap.Get key with
    | some (Value.str value) => orderedMapToArrayList.loop omap rest (result ++ [[key, value]])
    | _ => none

/-- The function `orderedMapToArrayList` (web.go 51-58); `none` is a panic. -/
def orderedMapToArrayList (omap : OrderedMap) : Option (List (List String)) :=
  orderedMapToArrayList.loop omap omap.Keys []

/-- One iteration of the loop of `arrayListToOrderedMap`: an item of length exactly 2 is
set into the map, any other item is skipped (the source logs a diagnostic). -/
def arrayListToOrderedMap.step (omap : OrderedMap) (item : List String) : OrderedMap :=
  match item with
  | [k, v] => omap.Set k (Value.str v)
  | _ => omap

/-- The function `arrayListToOrderedMap` (web.go 61-71). -/
def arrayListToOrderedMap (arrayList : List (List String)) : OrderedMap :=
  arrayList.foldl arrayListToOrderedMap.step OrderedMap.New

/-! ## Byte strings and constant-time comparison -/

/-- The UTF-8 bytes of one character: a Go string is the UTF-8 encoding of its text. -/
def utf8Bytes (c : Char) : List Nat :=
  let n := c.toNat
  if n < 0x80 then [n]
  else if n < 0x800 then [0xC0 + n / 0x40, 0x80 + n % 0x40]
  else if n < 0x10000 then [0xE0 + n / 0x1000, 0x80 + n / 0x40 % 0x40, 0x80 + n % 0x40]
  else [0xF0 + n / 0x40000, 0x80 + n / 0x1000 % 0x40, 0x80 + n / 0x40 % 0x40, 0x80 + n % 0x40]

/-- The conversion `[]byte(s)`: the bytes of a Go string. -/
def bytes (s : String) : List Nat := (s.data.map utf8Bytes).flatten

/-- The function `subtle.ConstantTimeByteEq` of the Go standard library on two `uint8`:
`int((uint32(x^y) - 1) >> 31)`, the subtraction wrapping at 32 bits. -/
def ConstantTimeByteEq (x y : Nat) : Int :=
  Int.ofNat ((((x ^^^ y) % 2 ^ 32 + 2 ^ 32 - 1) % 2 ^ 32) >>> 31)

/-- The loop of `subtle.ConstantTimeCompare`: `v |= x[i] ^ y[i]` on a `byte` accumulator. -/
def ConstantTimeCompare.loop : List Nat → List Nat → Nat → Nat
  | xi :: x, yi :: y, v => ConstantTimeCompare.loop x y ((v ||| (xi ^^^ yi)) % 256)
  | _, _, v => v

/-- The function `subtle.ConstantTimeCompare` of the Go standard library: 0 at once when the
lengths differ, otherwise the accumulated difference of all bytes is compared with 0. -/
def ConstantTimeCompare (x y : List Nat) : Int :=
  if x.length ≠ y.length then 0 else ConstantTimeByteEq (ConstantTimeCompare.loop x y 0) 0

/-! ## Configuration structures -/

/-- Modelled from the spec: the access policy `web.Auth` of the configuration (declared in the
config package, outside src): enabled flag, username, password. -/
structure config.WebAuth where
  Enabled : String
  Username : String
  Password : String
  deriving DecidableEq, Repr

/-- Modelled from the spec: `config.WebConfig` (declared in the config package, outside src),
with the fields web.go reads: host, port (a Go `int`) and the access policy. -/
structure config.WebConfig where
  Host : String
  Port : Int
  Auth : config.WebAuth
  deriving DecidableEq, Repr

/-- Modelled from the spec: `config.Config` (declared in the config package, outside src), with
the fields web.go reads and writes.  The section structures whose declarations are absent are
values of a type parameter `α`; `Course` is a pointer, `none` being nil. -/
structure config.Config (α : Type) where
  CasLogin : α
  NewjwLogin : α
  Cookies : α
  Time : α
  Course : Option OrderedMap
  WaitCourse : α
  SmtpEmail : α
  Telegram : α
  Bark : α
  Webhook : α
  Web : config.WebConfig
  StartTime : String

/-- The structure `WebConfig` of web.go 73-86: the transfer form of the configuration, with the
course table as a list of slices. -/
structure WebConfig (α : Type) where
  CasLogin : α
  NewjwLogin : α
  Cookies : α
  Time : α
  Course : List (List String)
  WaitCourse : α
  SmtpEmail : α
  Telegram : α
  Bark : α
  Webhook : α
  Web : config.WebConfig
  StartTime : String

/-! ## Requests, responses and handlers -/

/-- An HTTP request as the handlers see it: the result of `r.BasicAuth()` (`none` when it
reports `ok = false`: no or malformed credentials) and the body. -/
structure Request where
  BasicAuth : Option (String × String)
  Body : String
  deriving DecidableEq, Repr

/-- One write to the response body: text, or the JSON encoding of a transfer configuration. -/
inductive Chunk (α : Type) where
  | text (s : String)
  | json (v : WebConfig α)

/-- The state of an `http.ResponseWriter`: header map, status code (`none` until the header is
written) and the body written so far. -/
structure ResponseWriter (α : Type) where
  header : List (String × String)
  status : Option Nat
  body : List (Chunk α)

namespace ResponseWriter

/-- A response writer nothing has been written to. -/
def fresh {α : Type} : ResponseWriter α := { header := [], status := none, body := [] }

/-- The call `w.Header().Set(key, value)`. -/
def SetHeader {α : Type} (w : ResponseWriter α) (key value : String) : ResponseWriter α :=
  { w with header := (key, value) :: w.header.filter (fun h => h.1 ≠ key) }

/-- The call `w.Header().Del(key)`. -/
def DelHeader {α : Type} (w : ResponseWriter α) (key : String) : ResponseWriter α :=
  { w with header := w.header.filter (fun h => h.1 ≠ key) }

/-- The call `w.WriteHeader(code)`: only the first status written counts. -/
def WriteHeader {α : Type} (w : ResponseWriter α) (code : Nat) : ResponseWriter α :=
  match w.status with
  | none => { w with status := some code }
  | some _ => w

/-- The call `w.Write(data)`: writes status 200 first when no status was written. -/
def Write {α : Type} (w : ResponseWriter α) (data : Chunk α) : ResponseWriter α :=
  let w1 := w.WriteHeader 200
  { w1 with body := w1.body ++ [data] }

/-- The function `http.Error(w, error, code)` of the Go standard library. -/
def Error {α : Type} (w : ResponseWriter α) (error : String) (code : Nat) : ResponseWriter α :=
  let w1 := w.DelHeader "Content-Length"
  let w2 := w1.SetHeader "Content-Type" "text/plain; charset=utf-8"
  let w3 := w2.SetHeader "X-Content-Type-Options" "nosniff"
  (w3.WriteHeader code).Write (Chunk.text (error ++ "\n"))

end ResponseWriter

/-- How a handler call ends: it returns, or it panics; either way with the response writer and
the process state as they are at that moment. -/
inductive Result (α σ : Type) where
  | done (w : ResponseWriter α) (s : σ)
  | panic (w : ResponseWriter α) (s : σ)

/-- A handler (`http.HandlerFunc`) acting on a process state `σ`. -/
abbrev HandlerFunc (α σ : Type) := ResponseWriter α → Request → σ → Result α σ

/-! ## The access gate -/

/-- The function `webAuthEnabled` (web.go 22-31). -/
def webAuthEnabled (web : config.WebConfig) : Bool × String × String :=
  if web.Auth.Enabled ≠ "1" then (false, "", "")
  else if web.Auth.Username = "" ∨ web.Auth.Password = "" then (false, "", "")
  else (true, web.Auth.Username, web.Auth.Password)

/-- The condition of the `if` at web.go 41, evaluated left to right with the short-circuit
`||` of Go.  The first component is its value; the second lists the calls of
`subtle.ConstantTimeCompare` that the evaluation makes, with their arguments, in order. -/
def authDenied (username password : String) (r : Request) :
    Bool × List (List Nat × List Nat) :=
  match r.BasicAuth with
  | none => (true, [])
  | some (u, p) =>
    if ConstantTimeCompare (bytes u) (bytes username) ≠ 1 then
      (true, [(bytes u, bytes username)])
    else if ConstantTimeCompare (bytes p) (bytes password) ≠ 1 then
      (true, [(bytes u, bytes username), (bytes p, bytes password)])
    else
      (false, [(bytes u, bytes username), (bytes p, bytes password)])

/-- The response of the gate to a rejected request (web.go 42-43). -/
def unauthorized {α : Type} (w : ResponseWriter α) : ResponseWriter α :=
  (w.SetHeader "WWW-Authenticate" "Basic realm=\"HDU-KillCourse\"").Error "Unauthorized" 401

/-- The function `basicAuthWrap` (web.go 33-48). -/
def basicAuthWrap {α σ : Type} (web : config.WebConfig) (next : HandlerFunc α σ) :
    HandlerFunc α σ :=
  match webAuthEnabled web with
  | (false, _, _) => next
  | (true, username, password) => fun w r s =>
    if (authDenied username password r).1 then Result.done (unauthorized w) s
    else next w r s

/-- The condition under which the claims say the gate lets a request through: the gate is not
enabled, or the request carries exactly the username and password of the policy. -/
def gateAdmits (web : config.WebConfig) (r : Request) : Prop :=
  (webAuthEnabled web).1 = false ∨ r.BasicAuth = some (web.Auth.Username, web.Auth.Password)

instance (web : config.WebConfig) (r : Request) : Decidable (gateAdmits web r) := by
  unfold gateAdmits; exact inferInstance

/-! ## Process state, collaborators and the endpoint handlers -/

/-- Modelled from the spec: the persistence collaborator (`config.LoadConfig`,
`(*Config).Validate`, `config.SaveConfig`; the config package is outside src) and the JSON
decoder, as parameters.  `LoadConfig` returns the pointer and the error; `SaveConfig` returns
the store after the call and the error; `Decode` decodes a body into the transfer buffer it is
given and returns the buffer after the call and the error. -/
structure Env (α Disk : Type) where
  LoadConfig : Disk → Option (config.Config α) × Option String
  Validate : config.Config α → Option String
  SaveConfig : config.Config α → Disk → Disk × Option String
  Decode : String → WebConfig α → WebConfig α × Option String

/-- The process state the handlers share: the package variables `cfg` (a pointer, `none` being
nil) and `webCfg` (web.go 19-20), the persisted store, and a record of the configurations
`SaveConfig` has been called with. -/
structure State (α Disk : Type) where
  cfg : Option (config.Config α)
  webCfg : WebConfig α
  disk : Disk
  saved : List (config.Config α)

/-- The zero value of the transfer structure, given the zero value of a section. -/
def WebConfig.zero {α : Type} (z : α) : WebConfig α :=
  { CasLogin := z, NewjwLogin := z, Cookies := z, Time := z, Course := [], WaitCourse := z,
    SmtpEmail := z, Telegram := z, Bark := z, Webhook := z,
    Web := { Host := "", Port := 0, Auth := { Enabled := "", Username := "", Password := "" } },
    StartTime := "" }

/-- The process state when the service starts to serve: `cfg` is nil and `webCfg` is the zero
value, since `StartWebServer` keeps the configuration it loads in the local `loadedCfg`. -/
def State.startup {α Disk : Type} (z : α) (disk : Disk) : State α Disk :=
  { cfg := none, webCfg := WebConfig.zero z, disk := disk, saved := [] }

/-- The transfer structure built at web.go 136-149. -/
def toWebConfig {α : Type} (cfg : config.Config α) (courseArray : List (List String)) :
    WebConfig α :=
  { CasLogin := cfg.CasLogin, NewjwLogin := cfg.NewjwLogin, Cookies := cfg.Cookies,
    Time := cfg.Time, Course := courseArray, WaitCourse := cfg.WaitCourse,
    SmtpEmail := cfg.SmtpEmail, Telegram := cfg.Telegram, Bark := cfg.Bark,
    Webhook := cfg.Webhook, Web := cfg.Web, StartTime := cfg.StartTime }

/-- The field updates of web.go 164-175. -/
def updateCfg {α : Type} (cfg : config.Config α) (webCfg : WebConfig α)
    (courseMap : OrderedMap) : config.Config α :=
  { cfg with
    CasLogin := webCfg.CasLogin, NewjwLogin := webCfg.NewjwLogin, Cookies := webCfg.Cookies,
    Time := webCfg.Time, Course := some courseMap, WaitCourse := webCfg.WaitCourse,
    SmtpEmail := webCfg.SmtpEmail, Telegram := webCfg.Telegram, Bark := webCfg.Bark,
    Webhook := webCfg.Webhook, Web := webCfg.Web, StartTime := webCfg.StartTime }

/-- The handler of `/getConfig` (web.go 126-152).  It panics when the loaded pointer or its
course pointer is nil, or when the course map holds a non-string value. -/
def getConfigHandler {α Disk : Type} (env : Env α Disk) : HandlerFunc α (State α Disk) :=
  fun w _ s =>
    let loaded := env.LoadConfig s.disk
    let s1 := { s with cfg := loaded.1 }
    match loaded.2 with
    | some err => Result.done (w.Error ("无法读取配置文件: " ++ err) 500) s1
    | none =>
      match s1.cfg with
      | none => Result.panic w s1
      | some cfg =>
        match cfg.Course with
        | none => Result.panic w s1
        | some omap =>
          match orderedMapToArrayList omap with
          | none => Result.panic w s1
          | some courseArray =>
            let s2 := { s1 with webCfg := toWebConfig cfg courseArray }
            Result.done
              ((w.SetHeader "Content-Type" "application/json").Write (Chunk.json s2.webCfg)) s2

/-- The handler of `/saveConfig` (web.go 155-190).  The assignment `cfg.CasLogin = ...`
dereferences the package variable `cfg`, which panics when it is nil. -/
def saveConfigHandler {α Disk : Type} (env : Env α Disk) : HandlerFunc α (State α Disk) :=
  fun w r s =>
    let decoded := env.Decode r.Body s.webCfg
    let s1 := { s with webCfg := decoded.1 }
    match decoded.2 with
    | some err => Result.done (w.Error ("无法解析配置: " ++ err) 400) s1
    | none =>
      let courseMap := arrayListToOrderedMap s1.webCfg.Course
      match s1.cfg with
      | none => Result.panic w s1
      | some cfg =>
        let cfg1 := updateCfg cfg s1.webCfg courseMap
        let s2 := { s1 with cfg := some cfg1 }
        match env.Validate cfg1 with
        | some err => Result.done (w.Error ("配置验证失败: " ++ err) 400) s2
        | none =>
          let stored := env.SaveConfig cfg1 s2.disk
          let s3 := { s2 with disk := stored.1, saved := s2.saved ++ [cfg1] }
          match stored.2 with
          | some err => Result.done (w.Error ("无法保存配置文件: " ++ err) 500) s3
          | none => Result.done ((w.WriteHeader 200).Write (Chunk.text "配置保存成功")) s3

/-- The route `/getConfig` as registered at web.go 126: the handler behind the gate. -/
def getConfigRoute {α Disk : Type} (env : Env α Disk) (web : config.WebConfig) :
    HandlerFunc α (State α Disk) :=
  basicAuthWrap web (getConfigHandler env)

/-- The route `/saveConfig` as registered at web.go 155: the handler behind the gate. -/
def saveConfigRoute {α Disk : Type} (env : Env α Disk) (web : config.WebConfig) :
    HandlerFunc α (State α Disk) :=
  basicAuthWrap web (saveConfigHandler env)

/-- The status code with which a handler call completes: the status written, or 200 when the
handler returns without writing one; `none` when the handler panicked. -/
def Result.status {α σ : Type} : Result α σ → Option Nat
  | Result.done w _ => some (w.status.getD 200)
  | Result.panic _ _ => none

/-! ## The startup port search -/

/-- The increment `port++` on a Go `int` (64 bits, two's complement). -/
def incrInt (port : Int) : Int := (port + 1 + 2 ^ 63) % 2 ^ 64 - 2 ^ 63

/-- The loop of web.go 99-106 run for at most `fuel` bind attempts: `free port` tells whether
`net.Listen` succeeds on the port; `none` means the loop is still running. -/
def probePort (free : Int → Bool) : Nat → Int → Option Int
  | 0, _ => none
  | fuel + 1, port => if free port then some port else probePort free fuel (incrInt port)

/-! ## A concrete instance of the collaborators -/

/-- A small instance of the collaborators, for evaluating the handlers at concrete inputs: the
store holds the configuration last saved (`none`: no file yet); a configuration is invalid when
its start time is the text "invalid"; a non-empty body decodes to the course list
COURSE1/A, COURSE2/B with the body as start time, an empty body fails to decode. -/
def demoEnv : Env Unit (Option (config.Config Unit)) where
  LoadConfig := fun d =>
    match d with
    | some c => (some c, none)
    | none => (none, some "open config.json: no such file or directory")
  Validate := fun c => if c.StartTime = "invalid" then some "invalid start_time" else none
  SaveConfig := fun c _ => (some c, none)
  Decode := fun body wc =>
    if body = "" then (wc, some "EOF")
    else ({ wc with Course := [["COURSE1", "A"], ["COURSE2", "B"]], StartTime := body }, none)

/-- The ordered map COURSE1 ↦ A, COURSE2 ↦ B, COURSE2 having been set last. -/
def demoMap : OrderedMap :=
  { keys := ["COURSE1", "COURSE2"],
    values := [("COURSE2", Value.str "B"), ("COURSE1", Value.str "A")] }

/-- A policy with the gate enabled for user "u" with password "p". -/
def demoWeb : config.WebConfig :=
  { Host := "127.0.0.1", Port := 6688, Auth := { Enabled := "1", Username := "u", Password := "p" } }

/-- A configuration with an empty course map. -/
def demoCfg : config.Config Unit :=
  { CasLogin := (), NewjwLogin := (), Cookies := (), Time := (), Course := some OrderedMap.New,
    WaitCourse := (), SmtpEmail := (), Telegram := (), Bark := (), Webhook := (),
    Web := demoWeb, StartTime := "2026-01-01 08:00:00" }

/-- The state after a first `/getConfig` has loaded `demoCfg` from the store. -/
def demoState : State Unit (Option (config.Config Unit)) :=
  { cfg := some demoCfg, webCfg := toWebConfig demoCfg [], disk := some demoCfg, saved := [] }

/-- An inner handler that records its invocation by incrementing a counter. -/
def demoNext : HandlerFunc Unit Nat :=
  fun w _ s => Result.done (w.Write (Chunk.text "inner")) (s + 1)

/-! ## Codec helpers -/

/-- Setting a list of key/value pairs into a map, left to right. -/
def OrderedMap.setAll (acc : OrderedMap) (ps : List (String × String)) : OrderedMap :=
  ps.foldl (fun o p => o.Set p.1 (Value.str p.2)) acc

/-- The wire form of a list of key/value pairs: one two-element slice per pair. -/
def toItems (ps : List (String × String)) : List (List String) :=
  ps.map (fun p => [p.1, p.2])

/-- The string stored under a key, or the empty string when there is none. -/
def OrderedMap.valStr (o : OrderedMap) (k : String) : String :=
  match o.Get k with
  | some (Value.str s) => s
  | _ => ""

/-! ## Codec lemmas -/

theorem lookup_of_mem_nodup {β : Type} (l : List (String × β)) (k : String) (v : β)
    (hn : (l.map Prod.fst).Nodup) (hm : (k, v) ∈ l) : l.lookup k = some v := by
  induction l with
  | nil => simp at hm
  | cons p t ih =>
    obtain ⟨pk, pv⟩ := p
    simp only [List.map_cons, List.nodup_cons, List.mem_map, not_exists, not_and] at hn
    rcases List.mem_cons.1 hm with h | h
    · cases h
      simp [List.lookup_cons]
    · have hne : k ≠ pk := by
        intro e
        subst e
        exact hn.1 (k, v) h rfl
      have hb : (k == pk) = false := by simpa using hne
      rw [List.lookup_cons, hb]
      exact ih hn.2 h

theorem lookup_none_of_not_mem {β : Type} (l : List (String × β)) (k : String)
    (hk : k ∉ l.map Prod.fst) : l.lookup k = none := by
  induction l with
  | nil => rfl
  | cons p t ih =>
    obtain ⟨pk, pv⟩ := p
    simp only [List.map_cons, List.mem_cons, not_or] at hk
    have hb : (k == pk) = false := by simpa using hk.1
    rw [List.lookup_cons, hb]
    exact ih hk.2

theorem mem_of_lookup_some {β : Type} (l : List (String × β)) (k : String) (v : β)
    (h : l.lookup k = some v) : (k, v) ∈ l := by
  induction l with
  | nil => simp at h
  | cons p t ih =>
    obtain ⟨pk, pv⟩ := p
    rw [List.lookup_cons] at h
    by_cases e : k = pk
    · subst e
      simp at h
      simp [h]
    · have hb : (k == pk) = false := by simpa using e
      rw [hb] at h
      exact List.mem_cons_of_mem _ (ih h)

theorem step_toItems (acc : OrderedMap) (ps : List (String × String)) :
    (toItems ps).foldl arrayListToOrderedMap.step acc = acc.setAll ps := by
  induction ps generalizing acc with
  | nil => rfl
  | cons p t ih =>
    simp only [toItems, List.map_cons, List.foldl_cons, OrderedMap.setAll] at ih ⊢
    exact ih _

theorem setAll_values (acc : OrderedMap) (ps : List (String × String)) :
    (acc.setAll ps).values = (ps.map (fun p => (p.1, Value.str p.2))).reverse ++ acc.values := by
  induction ps generalizing acc with
  | nil => rfl
  | cons p t ih =>
    simp only [OrderedMap.setAll, List.foldl_cons] at ih ⊢
    rw [ih]
    simp [OrderedMap.Set]

theorem setAll_keys (acc : OrderedMap) (ps : List (String × String))
    (hn : (ps.map Prod.fst).Nodup) (hd : ∀ p ∈ ps, acc.values.lookup p.1 = none) :
    (acc.setAll ps).keys = acc.keys ++ ps.map Prod.fst := by
  induction ps generalizing acc with
  | nil => simp [OrderedMap.setAll]
  | cons p t ih =>
    simp only [List.map_cons, List.nodup_cons, List.mem_map, not_exists, not_and] at hn
    simp only [OrderedMap.setAll, List.foldl_cons] at ih ⊢
    rw [ih _ hn.2]
    · simp [OrderedMap.Set, hd p (List.mem_cons_self _ _)]
    · intro q hq
      have hne : q.1 ≠ p.1 := fun e => hn.1 q hq e
      have hb : (q.1 == p.1) = false := by simpa using hne
      simp only [OrderedMap.Set, List.lookup_cons, hb]
      exact hd q (List.mem_cons_of_mem _ hq)

theorem setAll_New_get_mem (ps : List (String × String)) (hn : (ps.map Prod.fst).Nodup)
    (p : String × String) (hp : p ∈ ps) :
    (OrderedMap.New.setAll ps).Get p.1 = some (Value.str p.2) := by
  unfold OrderedMap.Get
  rw [setAll_values]
  simp only [OrderedMap.New, List.append_nil]
  apply lookup_of_mem_nodup
  · rw [← List.map_reverse, List.map_map]
    have : (Prod.fst ∘ fun p : String × String => (p.1, Value.str p.2)) = Prod.fst := rfl
    rw [this, List.map_reverse]
    exact List.nodup_reverse.2 hn
  · rw [List.mem_reverse]
    exact List.mem_map.2 ⟨p, hp, rfl⟩

theorem setAll_New_get_not_mem (ps : List (String × String)) (k : String)
    (hk : k ∉ ps.map Prod.fst) : (OrderedMap.New.setAll ps).Get k = none := by
  unfold OrderedMap.Get
  rw [setAll_values]
  simp only [OrderedMap.New, List.append_nil]
  apply lookup_none_of_not_mem
  rw [← List.map_reverse, List.map_map]
  have : (Prod.fst ∘ fun p : String × String => (p.1, Value.str p.2)) = Prod.fst := rfl
  rw [this, List.map_reverse, List.mem_reverse]
  exact hk

theorem loop_spec (omap : OrderedMap) (ks : List String) (result : List (List String))
    (h : ∀ k ∈ ks, ∃ s, omap.Get k = some (Value.str s)) :
    orderedMapToArrayList.loop omap ks result
      = some (result ++ ks.map (fun k => [k, omap.valStr k])) := by
  induction ks generalizing result with
  | nil => simp [orderedMapToArrayList.loop]
  | cons k t ih =>
    obtain ⟨s, hs⟩ := h k (List.mem_cons_self _ _)
    have hv : omap.valStr k = s := by simp [OrderedMap.valStr, hs]
    rw [orderedMapToArrayList.loop, hs]
    simp only
    rw [ih _ (fun k hk => h k (List.mem_cons_of_mem _ hk))]
    simp [hv]

/-! ## Byte strings: the encoding is injective and the comparison decides equality -/

theorem char_toNat_lt (c : Char) : c.toNat < 0x110000 := by
  have h := c.valid
  simp only [Char.toNat, UInt32.isValidChar, Nat.isValidChar] at h ⊢
  omega

theorem char_toNat_inj (c d : Char) (h : c.toNat = d.toNat) : c = d := by
  rw [← Char.ofNat_toNat c, ← Char.ofNat_toNat d, h]

theorem utf8Bytes_lt (c : Char) : ∀ b ∈ utf8Bytes c, b < 256 := by
  have hc := char_toNat_lt c
  intro b hb
  unfold utf8Bytes at hb
  simp only at hb
  split_ifs at hb <;> simp only [List.mem_cons, List.mem_singleton, List.not_mem_nil, or_false] at hb <;> omega

theorem utf8Bytes_append_inj (c d : Char) (xs ys : List Nat)
    (h : utf8Bytes c ++ xs = utf8Bytes d ++ ys) : c = d ∧ xs = ys := by
  have hc := char_toNat_lt c
  have hd := char_toNat_lt d
  unfold utf8Bytes at h
  simp only at h
  split_ifs at h <;>
    simp only [List.cons_append, List.nil_append, List.cons.injEq] at h <;>
    first
      | (exfalso; omega)
      | exact ⟨char_toNat_inj c d (by omega), by simp [h]⟩

theorem utf8Bytes_ne_nil (c : Char) : utf8Bytes c ≠ [] := by
  unfold utf8Bytes
  simp only
  split_ifs <;> simp

theorem flatten_utf8_inj (l1 l2 : List Char)
    (h : (l1.map utf8Bytes).flatten = (l2.map utf8Bytes).flatten) : l1 = l2 := by
  induction l1 generalizing l2 with
  | nil =>
    cases l2 with
    | nil => rfl
    | cons d t =>
      simp only [List.map_nil, List.flatten_nil, List.map_cons, List.flatten_cons] at h
      have hd := utf8Bytes_ne_nil d
      cases hb : utf8Bytes d with
      | nil => exact absurd hb hd
      | cons b bs => rw [hb] at h; simp at h
  | cons c t ih =>
    cases l2 with
    | nil =>
      simp only [List.map_nil, List.flatten_nil, List.map_cons, List.flatten_cons] at h
      have hc := utf8Bytes_ne_nil c
      cases hb : utf8Bytes c with
      | nil => exact absurd hb hc
      | cons b bs => rw [hb] at h; simp at h
    | cons d t2 =>
      simp only [List.map_cons, List.flatten_cons] at h
      obtain ⟨hcd, ht⟩ := utf8Bytes_append_inj c d _ _ h
      rw [hcd, ih t2 ht]

theorem bytes_inj (s t : String) (h : bytes s = bytes t) : s = t :=
  String.ext (flatten_utf8_inj s.data t.data h)

theorem bytes_lt (s : String) : ∀ b ∈ bytes s, b < 256 := by
  intro b hb
  unfold bytes at hb
  simp only [List.mem_flatten, List.mem_map] at hb
  obtain ⟨l, ⟨c, _, hl⟩, hbl⟩ := hb
  subst hl
  exact utf8Bytes_lt c b hbl

theorem nat_or_eq_zero (a b : Nat) (h : a ||| b = 0) : a = 0 ∧ b = 0 := by
  have hbit : ∀ i, (a.testBit i || b.testBit i) = false := by
    intro i
    rw [← Nat.testBit_or, h, Nat.zero_testBit]
  constructor
  · apply Nat.zero_of_testBit_eq_false
    intro i
    have := hbit i
    simp only [Bool.or_eq_false_iff] at this
    exact this.1
  · apply Nat.zero_of_testBit_eq_false
    intro i
    have := hbit i
    simp only [Bool.or_eq_false_iff] at this
    exact this.2

theorem ctLoop_eq_zero (x y : List Nat) (v : Nat) (hlen : x.length = y.length)
    (hx : ∀ b ∈ x, b < 256) (hy : ∀ b ∈ y, b < 256) (hv : v < 256) :
    ConstantTimeCompare.loop x y v = 0 ↔ (v = 0 ∧ x = y) := by
  induction x generalizing y v with
  | nil =>
    cases y with
    | nil => simp [ConstantTimeCompare.loop]
    | cons b t => simp at hlen
  | cons a t ih =>
    cases y with
    | nil => simp at hlen
    | cons b t2 =>
      have ha : a < 2 ^ 8 := hx a (List.mem_cons_self _ _)
      have hb : b < 2 ^ 8 := hy b (List.mem_cons_self _ _)
      have hv8 : v < 2 ^ 8 := hv
      have hxor : a ^^^ b < 2 ^ 8 := Nat.xor_lt_two_pow ha hb
      have hor : v ||| (a ^^^ b) < 2 ^ 8 := Nat.or_lt_two_pow hv8 hxor
      have hmod : (v ||| (a ^^^ b)) % 256 = v ||| (a ^^^ b) := Nat.mod_eq_of_lt hor
      rw [ConstantTimeCompare.loop, hmod]
      rw [ih t2 (v ||| (a ^^^ b)) (by simpa using hlen)
        (fun c hc => hx c (List.mem_cons_of_mem _ hc))
        (fun c hc => hy c (List.mem_cons_of_mem _ hc)) hor]
      constructor
      · rintro ⟨h0, ht⟩
        obtain ⟨hv0, hab⟩ := nat_or_eq_zero _ _ h0
        exact ⟨hv0, by rw [Nat.xor_eq_zero.1 hab, ht]⟩
      · rintro ⟨hv0, hl⟩
        simp only [List.cons.injEq] at hl
        obtain ⟨hab, ht⟩ := hl
        subst hv0 hab
        exact ⟨by simp, ht⟩

theorem byteEq_zero (v : Nat) (hv : v < 256) : ConstantTimeByteEq v 0 = 1 ↔ v = 0 := by
  unfold ConstantTimeByteEq
  rw [Nat.xor_zero, Nat.shiftRight_eq_div_pow]
  constructor
  · intro h
    have h2 : (v % 2 ^ 32 + 2 ^ 32 - 1) % 2 ^ 32 / 2 ^ 31 = 1 := Int.ofNat.inj h
    omega
  · intro h
    subst h
    decide

theorem ConstantTimeCompare_eq_one (x y : List Nat)
    (hx : ∀ b ∈ x, b < 256) (hy : ∀ b ∈ y, b < 256) :
    ConstantTimeCompare x y = 1 ↔ x = y := by
  unfold ConstantTimeCompare
  by_cases hlen : x.length = y.length
  · simp only [ne_eq, hlen, not_true_eq_false, if_false]
    have hlt : ∀ (x y : List Nat) (v : Nat), v < 256 → ConstantTimeCompare.loop x y v < 256 := by
      intro x
      induction x with
      | nil => intro y v hv; cases y <;> simpa [ConstantTimeCompare.loop] using hv
      | cons a t ih =>
        intro y v hv
        cases y with
        | nil => simpa [ConstantTimeCompare.loop] using hv
        | cons b t2 =>
          rw [ConstantTimeCompare.loop]
          exact ih t2 _ (Nat.mod_lt _ (by decide))
    rw [byteEq_zero _ (hlt x y 0 (by decide)), ctLoop_eq_zero x y 0 hlen hx hy (by decide)]
    simp
  · simp only [ne_eq, hlen, not_false_eq_true, if_true]
    constructor
    · intro h; exact absurd h (by decide)
    · intro h; exact absurd (congrArg List.length h) hlen

theorem compare_strings (u v : String) :
    ConstantTimeCompare (bytes u) (bytes v) = 1 ↔ u = v := by
  rw [ConstantTimeCompare_eq_one _ _ (bytes_lt u) (bytes_lt v)]
  exact ⟨bytes_inj u v, fun h => by rw [h]⟩

/-! ## The access gate -/

theorem webAuthEnabled_true (web : config.WebConfig) :
    (webAuthEnabled web).1 = true ↔
      (web.Auth.Enabled = "1" ∧ web.Auth.Username ≠ "" ∧ web.Auth.Password ≠ "") := by
  unfold webAuthEnabled
  by_cases h1 : web.Auth.Enabled = "1"
  · by_cases h2 : web.Auth.Username = ""
    · simp [h1, h2]
    · by_cases h3 : web.Auth.Password = ""
      · simp [h1, h3]
      · simp [h1, h2, h3]
  · simp [h1]

theorem webAuthEnabled_eq (web : config.WebConfig) (h : (webAuthEnabled web).1 = true) :
    webAuthEnabled web = (true, web.Auth.Username, web.Auth.Password) := by
  obtain ⟨h1, h2, h3⟩ := (webAuthEnabled_true web).1 h
  simp [webAuthEnabled, h1, h2, h3]

theorem authDenied_false (username password : String) (r : Request) :
    (authDenied username password r).1 = false ↔ r.BasicAuth = some (username, password) := by
  unfold authDenied
  cases hr : r.BasicAuth with
  | none => simp
  | some up =>
    obtain ⟨u, p⟩ := up
    simp only [ne_eq, Option.some.injEq, Prod.mk.injEq]
    by_cases hu : ConstantTimeCompare (bytes u) (bytes username) = 1
    · by_cases hp : ConstantTimeCompare (bytes p) (bytes password) = 1
      · simp only [hu, hp, not_true_eq_false, if_false, true_iff]
        exact ⟨(compare_strings u username).1 hu, (compare_strings p password).1 hp⟩
      · simp only [hu, hp, not_true_eq_false, not_false_eq_true, if_false, if_true]
        constructor
        · intro h; exact absurd h (by decide)
        · rintro ⟨_, h⟩; exact absurd ((compare_strings p password).2 h) hp
    · simp only [hu, not_false_eq_true, if_true]
      constructor
      · intro h; exact absurd h (by decide)
      · rintro ⟨h, _⟩; exact absurd ((compare_strings u username).2 h) hu

theorem basicAuthWrap_admits {α σ : Type} (web : config.WebConfig) (next : HandlerFunc α σ)
    (w : ResponseWriter α) (r : Request) (s : σ) (h : gateAdmits web r) :
    basicAuthWrap web next w r s = next w r s := by
  unfold basicAuthWrap
  cases he : (webAuthEnabled web).1 with
  | false =>
    have : webAuthEnabled web = (false, (webAuthEnabled web).2.1, (webAuthEnabled web).2.2) := by
      rw [← he]
    rw [this]
  | true =>
    rw [webAuthEnabled_eq web he]
    have hr : r.BasicAuth = some (web.Auth.Username, web.Auth.Password) := by
      rcases h with h | h
      · rw [he] at h; exact absurd h (by decide)
      · exact h
    simp only [(authDenied_false _ _ r).2 hr]
    rfl

theorem basicAuthWrap_denies {α σ : Type} (web : config.WebConfig) (next : HandlerFunc α σ)
    (w : ResponseWriter α) (r : Request) (s : σ) (h : ¬ gateAdmits web r) :
    basicAuthWrap web next w r s = Result.done (unauthorized w) s := by
  unfold gateAdmits at h
  simp only [not_or] at h
  have he : (webAuthEnabled web).1 = true := by simpa using h.1
  unfold basicAuthWrap
  rw [webAuthEnabled_eq web he]
  have hd : (authDenied web.Auth.Username web.Auth.Password r).1 = true := by
    cases hb : (authDenied web.Auth.Username web.Auth.Password r).1 with
    | true => rfl
    | false => exact absurd ((authDenied_false _ _ r).1 hb) h.2
  simp only [hd, if_true]

theorem unauthorized_status {α : Type} (w : ResponseWriter α) (hw : w.status = none) :
    (unauthorized w).status = some 401 := by
  simp [unauthorized, ResponseWriter.Error, ResponseWriter.Write, ResponseWriter.WriteHeader,
    ResponseWriter.SetHeader, ResponseWriter.DelHeader, hw]

theorem unauthorized_header {α : Type} (w : ResponseWriter α) :
    (unauthorized w).header.lookup "WWW-Authenticate"
      = some "Basic realm=\"HDU-KillCourse\"" := by
  simp only [unauthorized, ResponseWriter.Error, ResponseWriter.Write,
    ResponseWriter.WriteHeader, ResponseWriter.SetHeader, ResponseWriter.DelHeader]
  split <;> split <;> simp [List.lookup_cons, List.filter_cons]

/-! ## Codec: decoding after encoding, encoding after decoding -/

theorem step_skip (acc : OrderedMap) (item : List String) (h : item.length ≠ 2) :
    arrayListToOrderedMap.step acc item = acc := by
  match item with
  | [] => rfl
  | [_] => rfl
  | [_, _] => simp at h
  | _ :: _ :: _ :: _ => rfl

theorem foldl_step_filter (acc : OrderedMap) (l : List (List String)) :
    l.foldl arrayListToOrderedMap.step acc
      = (l.filter (fun item => decide (item.length = 2))).foldl arrayListToOrderedMap.step acc := by
  induction l generalizing acc with
  | nil => rfl
  | cons item t ih =>
    by_cases h : item.length = 2
    · simp only [List.foldl_cons, List.filter_cons, h, decide_True, if_true]
      exact ih _
    · simp only [List.foldl_cons, List.filter_cons, h, decide_False, Bool.false_eq_true, if_false]
      rw [step_skip acc item h]
      exact ih _

/-- The key/value pairs of a list of two-element slices. -/
theorem toItems_of_length_two (l : List (List String)) (h : ∀ item ∈ l, item.length = 2) :
    toItems (l.map (fun item => (item.headD "", item.tail.headD ""))) = l := by
  induction l with
  | nil => rfl
  | cons item t ih =>
    have hi := h item (List.mem_cons_self _ _)
    have ht := ih (fun x hx => h x (List.mem_cons_of_mem _ hx))
    simp only [toItems, List.map_cons, List.map_map] at ht ⊢
    rw [ht]
    match item, hi with
    | [a, b], _ => rfl

theorem head_of_length_two (l : List (List String)) (h : ∀ item ∈ l, item.length = 2) :
    l.map List.head? = (l.map (fun item => (item.headD "", item.tail.headD ""))).map
      (fun p => some p.1) := by
  induction l with
  | nil => rfl
  | cons item t ih =>
    have hi := h item (List.mem_cons_self _ _)
    have ht := ih (fun x hx => h x (List.mem_cons_of_mem _ hx))
    simp only [List.map_cons, List.map_map] at ht ⊢
    rw [ht]
    match item, hi with
    | [a, b], _ => rfl

theorem encode_setAll (ps : List (String × String)) (hn : (ps.map Prod.fst).Nodup) :
    orderedMapToArrayList (OrderedMap.New.setAll ps) = some (toItems ps) := by
  unfold orderedMapToArrayList OrderedMap.Keys
  have hk : (OrderedMap.New.setAll ps).keys = ps.map Prod.fst := by
    rw [setAll_keys OrderedMap.New ps hn (fun _ _ => rfl)]
    rfl
  rw [hk, loop_spec]
  · simp only [List.nil_append, List.map_map, toItems]
    congr 1
    apply List.map_congr_left
    intro p hp
    simp [OrderedMap.valStr, setAll_New_get_mem ps hn p hp]
  · intro k hk
    obtain ⟨p, hp, rfl⟩ := List.mem_map.1 hk
    exact ⟨p.2, setAll_New_get_mem ps hn p hp⟩

theorem encode_decode (l : List (List String)) (hlen : ∀ item ∈ l, item.length = 2)
    (hkeys : (l.map List.head?).Nodup) :
    orderedMapToArrayList (arrayListToOrderedMap l) = some l := by
  have hitems := toItems_of_length_two l hlen
  have hn : ((l.map (fun item => (item.headD "", item.tail.headD ""))).map Prod.fst).Nodup := by
    rw [head_of_length_two l hlen] at hkeys
    apply List.Nodup.of_map some
    rw [List.map_map]
    exact hkeys
  unfold arrayListToOrderedMap
  rw [← hitems, step_toItems, encode_setAll _ hn]

/-! ## The port search -/

theorem incrInt_eq (port : Int) (hlo : -2 ^ 63 ≤ port) (hhi : port + 1 < 2 ^ 63) :
    incrInt port = port + 1 := by
  unfold incrInt
  omega

theorem probePort_search (free : Int → Bool) (q : Int) (hq : q < 2 ^ 63) (hfree : free q = true) :
    ∀ (n : Nat) (P : Int), (q - P).toNat = n → -2 ^ 63 ≤ P → P ≤ q →
      ∃ p : Int, P ≤ p ∧ p ≤ q ∧ free p = true ∧ (∀ x, P ≤ x → x < p → free x = false) ∧
        (∀ fuel, (p - P).toNat < fuel → probePort free fuel P = some p) ∧
        (∀ fuel, fuel ≤ (p - P).toNat → probePort free fuel P = none) := by
  intro n
  induction n with
  | zero =>
    intro P hn hlo hPq
    have hPe : P = q := by omega
    subst hPe
    refine ⟨P, le_refl _, le_refl _, hfree, fun x h1 h2 => by omega, ?_, ?_⟩
    · intro fuel hf
      cases fuel with
      | zero => simp at hf
      | succ k => simp [probePort, hfree]
    · intro fuel hf
      have : fuel = 0 := by simpa using hf
      subst this
      rfl
  | succ m ih =>
    intro P hn hlo hPq
    by_cases hP : free P = true
    · refine ⟨P, le_refl _, hPq, hP, fun x h1 h2 => by omega, ?_, ?_⟩
      · intro fuel hf
        cases fuel with
        | zero => simp at hf
        | succ k => simp [probePort, hP]
      · intro fuel hf
        have : fuel = 0 := by simpa using hf
        subst this
        rfl
    · have hPf : free P = false := by simpa using hP
      have hlt : P < q := by omega
      have hinc : incrInt P = P + 1 := incrInt_eq P hlo (by omega)
      obtain ⟨p, h1, h2, h3, h4, h5, h6⟩ := ih (P + 1) (by omega) (by omega) (by omega)
      refine ⟨p, by omega, h2, h3, ?_, ?_, ?_⟩
      · intro x hx1 hx2
        by_cases hxP : x = P
        · rw [hxP]; exact hPf
        · exact h4 x (by omega) hx2
      · intro fuel hf
        cases fuel with
        | zero => simp at hf
        | succ k =>
          simp only [probePort, hPf, Bool.false_eq_true, if_false, hinc]
          exact h5 k (by omega)
      · intro fuel hf
        cases fuel with
        | zero => rfl
        | succ k =>
          simp only [probePort, hPf, Bool.false_eq_true, if_false, hinc]
          exact h6 k (by omega)

/-! ## Handlers -/

theorem error_status {α : Type} (w : ResponseWriter α) (msg : String) (code : Nat)
    (hw : w.status = none) : (w.Error msg code).status = some code := by
  simp [ResponseWriter.Error, ResponseWriter.Write, ResponseWriter.WriteHeader,
    ResponseWriter.SetHeader, ResponseWriter.DelHeader, hw]

theorem unauthorized_fresh_status {α : Type} :
    (unauthorized (ResponseWriter.fresh : ResponseWriter α)).status = some 401 :=
  unauthorized_status _ rfl

theorem saveConfigHandler_ok {α Disk : Type} (env : Env α Disk) (w : ResponseWriter α)
    (r : Request) (s : State α Disk) (hw : w.status = none)
    (h : (saveConfigHandler env w r s).status = some 200) :
    ∃ cfg, s.cfg = some cfg ∧ (env.Decode r.Body s.webCfg).2 = none ∧
      env.Validate (updateCfg cfg (env.Decode r.Body s.webCfg).1
        (arrayListToOrderedMap (env.Decode r.Body s.webCfg).1.Course)) = none ∧
      (env.SaveConfig (updateCfg cfg (env.Decode r.Body s.webCfg).1
        (arrayListToOrderedMap (env.Decode r.Body s.webCfg).1.Course)) s.disk).2 = none ∧
      saveConfigHandler env w r s
        = Result.done ((w.WriteHeader 200).Write (Chunk.text "配置保存成功"))
            { cfg := some (updateCfg cfg (env.Decode r.Body s.webCfg).1
                (arrayListToOrderedMap (env.Decode r.Body s.webCfg).1.Course)),
              webCfg := (env.Decode r.Body s.webCfg).1,
              disk := (env.SaveConfig (updateCfg cfg (env.Decode r.Body s.webCfg).1
                (arrayListToOrderedMap (env.Decode r.Body s.webCfg).1.Course)) s.disk).1,
              saved := s.saved ++ [updateCfg cfg (env.Decode r.Body s.webCfg).1
                (arrayListToOrderedMap (env.Decode r.Body s.webCfg).1.Course)] } := by
  cases hd : (env.Decode r.Body s.webCfg).2 with
  | some e =>
    simp only [saveConfigHandler, hd, Result.status, error_status w _ 400 hw] at h
    exact absurd h (by decide)
  | none =>
    cases hc : s.cfg with
    | none =>
      simp only [saveConfigHandler, hd, hc, Result.status] at h
      exact absurd h (by decide)
    | some cfg =>
      refine ⟨cfg, rfl, rfl, ?_⟩
      cases hv : env.Validate (updateCfg cfg (env.Decode r.Body s.webCfg).1
          (arrayListToOrderedMap (env.Decode r.Body s.webCfg).1.Course)) with
      | some e =>
        simp only [saveConfigHandler, hd, hc, hv, Result.status, error_status w _ 400 hw] at h
        exact absurd h (by decide)
      | none =>
        refine ⟨rfl, ?_⟩
        cases hs : (env.SaveConfig (updateCfg cfg (env.Decode r.Body s.webCfg).1
            (arrayListToOrderedMap (env.Decode r.Body s.webCfg).1.Course)) s.disk).2 with
        | some e =>
          simp only [saveConfigHandler, hd, hc, hv, hs, Result.status,
            error_status w _ 500 hw] at h
          exact absurd h (by decide)
        | none =>
          refine ⟨rfl, ?_⟩
          simp only [saveConfigHandler, hd, hc, hv, hs]

theorem get_str_of_wf (m : OrderedMap) (hwf : m.WF) (hstr : m.StringValued) :
    ∀ k ∈ m.keys, ∃ s, m.Get k = some (Value.str s) := by
  intro k hk
  have hsome := hwf.2.1 k hk
  cases hg : m.Get k with
  | none => rw [hg] at hsome; exact absurd hsome (by decide)
  | some v =>
    have hmem := mem_of_lookup_some m.values k v hg
    have hv := hstr (k, v) hmem
    cases v with
    | str s => exact ⟨s, rfl⟩
    | nonString => simp [Value.isStr] at hv

theorem encode_of_wf (m : OrderedMap) (hwf : m.WF) (hstr : m.StringValued) :
    orderedMapToArrayList m = some (toItems (m.keys.map (fun k => (k, m.valStr k)))) := by
  unfold orderedMapToArrayList OrderedMap.Keys
  rw [loop_spec m m.keys [] (get_str_of_wf m hwf hstr)]
  simp [toItems, List.map_map, Function.comp_def]

theorem getConfigHandler_loaded {α Disk : Type} (env : Env α Disk) (w : ResponseWriter α)
    (r : Request) (s : State α Disk) (cfg : config.Config α) (omap : OrderedMap)
    (l : List (List String)) (hl : env.LoadConfig s.disk = (some cfg, none))
    (hc : cfg.Course = some omap) (he : orderedMapToArrayList omap = some l) :
    getConfigHandler env w r s
      = Result.done
          ((w.SetHeader "Content-Type" "application/json").Write (Chunk.json (toWebConfig cfg l)))
          { s with cfg := some cfg, webCfg := toWebConfig cfg l } := by
  simp only [getConfigHandler, hl, hc, he]

theorem saveConfigHandler_outcomes {α Disk : Type} (env : Env α Disk) (w : ResponseWriter α)
    (r : Request) (s : State α Disk) (cfg : config.Config α) (hw : w.status = none)
    (hcfg : s.cfg = some cfg) :
    (saveConfigHandler env w r s).status =
      if (env.Decode r.Body s.webCfg).2.isSome then some 400
      else if (env.Validate (updateCfg cfg (env.Decode r.Body s.webCfg).1
          (arrayListToOrderedMap (env.Decode r.Body s.webCfg).1.Course))).isSome then some 400
      else if (env.SaveConfig (updateCfg cfg (env.Decode r.Body s.webCfg).1
          (arrayListToOrderedMap (env.Decode r.Body s.webCfg).1.Course)) s.disk).2.isSome
        then some 500
      else some 200 := by
  cases hd : (env.Decode r.Body s.webCfg).2 with
  | some e => simp [saveConfigHandler, hd, Result.status, error_status w _ 400 hw]
  | none =>
    cases hv : env.Validate (updateCfg cfg (env.Decode r.Body s.webCfg).1
        (arrayListToOrderedMap (env.Decode r.Body s.webCfg).1.Course)) with
    | some e => simp [saveConfigHandler, hd, hcfg, hv, Result.status, error_status w _ 400 hw]
    | none =>
      cases hs : (env.SaveConfig (updateCfg cfg (env.Decode r.Body s.webCfg).1
          (arrayListToOrderedMap (env.Decode r.Body s.webCfg).1.Course)) s.disk).2 with
      | some e =>
        simp [saveConfigHandler, hd, hcfg, hv, hs, Result.status, error_status w _ 500 hw]
      | none =>
        simp [saveConfigHandler, hd, hcfg, hv, hs, Result.status, ResponseWriter.Write,
          ResponseWriter.WriteHeader, hw]

/-! ## The claims -/

/-- C1: for every ordered map that satisfies the data-model invariant (unique keys, the key
slice listing exactly the stored keys) and holds only string values, `orderedMapToArrayList`
returns a list, and `arrayListToOrderedMap` of that list has the same keys in the same order
and the same value under every key. -/
theorem codec_roundtrip (m : OrderedMap) (hwf : m.WF) (hstr : m.StringValued) :
    ∃ l, orderedMapToArrayList m = some l ∧
      (arrayListToOrderedMap l).Keys = m.Keys ∧
      ∀ k, (arrayListToOrderedMap l).Get k = m.Get k := by
  have hn : ((m.keys.map (fun k => (k, m.valStr k))).map Prod.fst).Nodup := by
    rw [List.map_map]
    have e : (Prod.fst ∘ fun k => (k, m.valStr k)) = id := rfl
    rw [e, List.map_id]
    exact hwf.1
  have hfst : (m.keys.map (fun k => (k, m.valStr k))).map Prod.fst = m.keys := by
    rw [List.map_map]
    have e : (Prod.fst ∘ fun k => (k, m.valStr k)) = id := rfl
    rw [e, List.map_id]
  refine ⟨_, encode_of_wf m hwf hstr, ?_, ?_⟩
  · unfold arrayListToOrderedMap OrderedMap.Keys
    rw [step_toItems, setAll_keys OrderedMap.New _ hn (fun _ _ => rfl), hfst]
    rfl
  · intro k
    unfold arrayListToOrderedMap
    rw [step_toItems]
    by_cases hk : k ∈ m.keys
    · obtain ⟨v, hv⟩ := get_str_of_wf m hwf hstr k hk
      have hp : (k, m.valStr k) ∈ m.keys.map (fun k => (k, m.valStr k)) :=
        List.mem_map.2 ⟨k, hk, rfl⟩
      rw [setAll_New_get_mem _ hn _ hp, hv]
      simp [OrderedMap.valStr, hv]
    · rw [setAll_New_get_not_mem _ k (by rw [hfst]; exact hk)]
      cases hg : m.Get k with
      | none => rfl
      | some v => exact absurd (hwf.2.2 (k, v) (mem_of_lookup_some m.values k v hg)) hk

/-- Witness of C1 on the map COURSE1 ↦ A, COURSE2 ↦ B. -/
theorem codec_roundtrip_witness :
    demoMap.WF ∧ demoMap.StringValued ∧
    ∃ l, orderedMapToArrayList demoMap = some l ∧
      (arrayListToOrderedMap l).Keys = demoMap.Keys ∧
      ∀ k, (arrayListToOrderedMap l).Get k = demoMap.Get k :=
  ⟨by decide, by decide, codec_roundtrip demoMap (by decide) (by decide)⟩

/-- C8: for every ordered map that satisfies the data-model invariant and holds only string
values, `orderedMapToArrayList` returns a list as long as the key slice, every element of which
has length 2, and whose i-th element is the pair of the i-th key and the value stored under
it. -/
theorem orderedMapToArrayList_entries (m : OrderedMap) (hwf : m.WF) (hstr : m.StringValued) :
    ∃ l, orderedMapToArrayList m = some l ∧ l.length = m.Keys.length ∧
      (∀ item ∈ l, item.length = 2) ∧
      ∀ (i : Nat) (hi : i < m.Keys.length),
        ∃ v, m.Get (m.Keys.get ⟨i, hi⟩) = some (Value.str v) ∧
          l[i]? = some [m.Keys.get ⟨i, hi⟩, v] := by
  refine ⟨_, encode_of_wf m hwf hstr, ?_, ?_, ?_⟩
  · simp [toItems, OrderedMap.Keys]
  · intro item hitem
    simp only [toItems, List.map_map, List.mem_map] at hitem
    obtain ⟨k, _, rfl⟩ := hitem
    rfl
  · intro i hi
    have hmem : m.Keys.get ⟨i, hi⟩ ∈ m.keys := List.get_mem _ _ _
    obtain ⟨v, hv⟩ := get_str_of_wf m hwf hstr _ hmem
    refine ⟨v, hv, ?_⟩
    have hi2 : i < m.keys.length := hi
    simp only [toItems, List.map_map, List.getElem?_map, List.getElem?_eq_getElem hi2,
      Option.map_some', Function.comp_apply]
    simp [OrderedMap.valStr, OrderedMap.Keys, hv] at hv ⊢

/-- Witness of C8 on the map COURSE1 ↦ A, COURSE2 ↦ B. -/
theorem orderedMapToArrayList_entries_witness :
    demoMap.WF ∧ demoMap.StringValued ∧
    ∃ l, orderedMapToArrayList demoMap = some l ∧ l.length = demoMap.Keys.length ∧
      (∀ item ∈ l, item.length = 2) ∧
      ∀ (i : Nat) (hi : i < demoMap.Keys.length),
        ∃ v, demoMap.Get (demoMap.Keys.get ⟨i, hi⟩) = some (Value.str v) ∧
          l[i]? = some [demoMap.Keys.get ⟨i, hi⟩, v] :=
  ⟨by decide, by decide, orderedMapToArrayList_entries demoMap (by decide) (by decide)⟩

/-- C7: `arrayListToOrderedMap` gives the same map on a list and on the list with every
element of length other than 2 removed; and a list of one element of length 1 (first, second
or last) and two elements of length 2 gives the map obtained by setting the two pairs in
order, which holds the value of the second pair under its key, the value of the first pair
under its key (when the keys differ), and nothing under any other key. -/
theorem arrayListToOrderedMap_skips (arrayList : List (List String))
    (b k1 v1 k2 v2 : String) :
    arrayListToOrderedMap arrayList
      = arrayListToOrderedMap (arrayList.filter (fun item => decide (item.length = 2))) ∧
    arrayListToOrderedMap [[b], [k1, v1], [k2, v2]]
      = (OrderedMap.New.Set k1 (Value.str v1)).Set k2 (Value.str v2) ∧
    arrayListToOrderedMap [[k1, v1], [b], [k2, v2]]
      = (OrderedMap.New.Set k1 (Value.str v1)).Set k2 (Value.str v2) ∧
    arrayListToOrderedMap [[k1, v1], [k2, v2], [b]]
      = (OrderedMap.New.Set k1 (Value.str v1)).Set k2 (Value.str v2) ∧
    ((OrderedMap.New.Set k1 (Value.str v1)).Set k2 (Value.str v2)).Keys
      = (if k2 = k1 then [k1] else [k1, k2]) ∧
    ∀ k, ((OrderedMap.New.Set k1 (Value.str v1)).Set k2 (Value.str v2)).Get k
      = if k = k2 then some (Value.str v2) else if k = k1 then some (Value.str v1) else none := by
  refine ⟨foldl_step_filter OrderedMap.New arrayList, rfl, rfl, rfl, ?_, ?_⟩
  · by_cases h : k2 = k1
    · simp [OrderedMap.Set, OrderedMap.New, OrderedMap.Keys, List.lookup_cons, h]
    · have hb : (k2 == k1) = false := by simpa using h
      simp [OrderedMap.Set, OrderedMap.New, OrderedMap.Keys, List.lookup_cons, h, hb]
  · intro k
    by_cases h2 : k = k2
    · simp [OrderedMap.Set, OrderedMap.New, OrderedMap.Get, List.lookup_cons, h2]
    · have hb2 : (k == k2) = false := by simpa using h2
      by_cases h1 : k = k1
      · subst h1
        simp [OrderedMap.Set, OrderedMap.New, OrderedMap.Get, List.lookup_cons, h2, hb2]
      · have hb1 : (k == k1) = false := by simpa using h1
        simp [OrderedMap.Set, OrderedMap.New, OrderedMap.Get, List.lookup_cons, h2, h1, hb2, hb1]

/-- C3: `webAuthEnabled` reports enabled exactly when the enabled flag is "1" and the username
and the password are both non-empty; it then returns the username and password of the policy,
and otherwise returns false with two empty strings; the policy with flag "1", empty username
and password "x" is reported disabled. -/
theorem webAuthEnabled_spec (web : config.WebConfig) :
    ((webAuthEnabled web).1 = true ↔
      (web.Auth.Enabled = "1" ∧ web.Auth.Username ≠ "" ∧ web.Auth.Password ≠ "")) ∧
    webAuthEnabled web
      = (if web.Auth.Enabled = "1" ∧ web.Auth.Username ≠ "" ∧ web.Auth.Password ≠ ""
         then (true, web.Auth.Username, web.Auth.Password) else (false, "", "")) ∧
    (webAuthEnabled { web with Auth := { Enabled := "1", Username := "", Password := "x" } }).1
      = false := by
  refine ⟨webAuthEnabled_true web, ?_, rfl⟩
  by_cases h : web.Auth.Enabled = "1" ∧ web.Auth.Username ≠ "" ∧ web.Auth.Password ≠ ""
  · rw [if_pos h]
    exact webAuthEnabled_eq web ((webAuthEnabled_true web).2 h)
  · rw [if_neg h]
    have hf : (webAuthEnabled web).1 = false := by
      cases hb : (webAuthEnabled web).1 with
      | false => rfl
      | true => exact absurd ((webAuthEnabled_true web).1 hb) h
    unfold webAuthEnabled at hf ⊢
    split_ifs at hf ⊢ <;> rfl

/-- C2: on a response writer whose status is not yet written, the handler returned by
`basicAuthWrap` behaves as the inner handler on the same writer, request and state when the
gate is not enabled or the request carries exactly the username and password of the policy;
in every other case it returns the 401 response with the `WWW-Authenticate` challenge, whatever
the inner handler is, and leaves the state unchanged. -/
theorem basicAuthWrap_gate {α σ : Type} (web : config.WebConfig) (next : HandlerFunc α σ)
    (w : ResponseWriter α) (r : Request) (s : σ) (hw : w.status = none) :
    (gateAdmits web r → basicAuthWrap web next w r s = next w r s) ∧
    (¬ gateAdmits web r →
      basicAuthWrap web next w r s = Result.done (unauthorized w) s ∧
      (unauthorized w).status = some 401 ∧
      (unauthorized w).header.lookup "WWW-Authenticate"
        = some "Basic realm=\"HDU-KillCourse\"") :=
  ⟨basicAuthWrap_admits web next w r s,
   fun h => ⟨basicAuthWrap_denies web next w r s h, unauthorized_status w hw,
     unauthorized_header w⟩⟩

/-- Witness of C2 on the policy enabled "1", username "u", password "p": the credentials
(u, p) reach the inner handler, which increments the counter; the credentials (u, "wrong") and
a request without credentials get the 401 response and the counter stays 0. -/
theorem basicAuthWrap_gate_witness :
    (ResponseWriter.fresh : ResponseWriter Unit).status = none ∧
    basicAuthWrap demoWeb demoNext ResponseWriter.fresh
        { BasicAuth := some ("u", "p"), Body := "" } 0
      = Result.done (ResponseWriter.fresh.Write (Chunk.text "inner")) 1 ∧
    basicAuthWrap demoWeb demoNext ResponseWriter.fresh
        { BasicAuth := some ("u", "wrong"), Body := "" } 0
      = Result.done (unauthorized ResponseWriter.fresh) 0 ∧
    basicAuthWrap demoWeb demoNext ResponseWriter.fresh
        { BasicAuth := none, Body := "" } 0
      = Result.done (unauthorized ResponseWriter.fresh) 0 :=
  ⟨rfl,
   (basicAuthWrap_gate demoWeb demoNext ResponseWriter.fresh
      { BasicAuth := some ("u", "p"), Body := "" } 0 rfl).1 (by decide),
   ((basicAuthWrap_gate demoWeb demoNext ResponseWriter.fresh
      { BasicAuth := some ("u", "wrong"), Body := "" } 0 rfl).2 (by decide)).1,
   ((basicAuthWrap_gate demoWeb demoNext ResponseWriter.fresh
      { BasicAuth := none, Body := "" } 0 rfl).2 (by decide)).1⟩

/-- C4: when a request passes the gate, its body decodes without error, the package variable
`cfg` is set, and the configuration derived from the decoded transfer structure fails
validation, the `/saveConfig` route answers 400 with the validation error text, the persisted
store is as before the request, and `SaveConfig` has not been called. -/
theorem saveConfig_validation_gate {α Disk : Type} (env : Env α Disk) (web : config.WebConfig)
    (w : ResponseWriter α) (r : Request) (s : State α Disk) (cfg : config.Config α)
    (err : String) (hw : w.status = none) (hadm : gateAdmits web r)
    (hparse : (env.Decode r.Body s.webCfg).2 = none) (hcfg : s.cfg = some cfg)
    (hval : env.Validate (updateCfg cfg (env.Decode r.Body s.webCfg).1
      (arrayListToOrderedMap (env.Decode r.Body s.webCfg).1.Course)) = some err) :
    ∃ s1, saveConfigRoute env web w r s
        = Result.done (w.Error ("配置验证失败: " ++ err) 400) s1 ∧
      (saveConfigRoute env web w r s).status = some 400 ∧
      s1.disk = s.disk ∧ s1.saved = s.saved := by
  have hroute : saveConfigRoute env web w r s
      = Result.done (w.Error ("配置验证失败: " ++ err) 400)
          { s with webCfg := (env.Decode r.Body s.webCfg).1,
                   cfg := some (updateCfg cfg (env.Decode r.Body s.webCfg).1
                     (arrayListToOrderedMap (env.Decode r.Body s.webCfg).1.Course)) } := by
    unfold saveConfigRoute
    rw [basicAuthWrap_admits web _ w r s hadm]
    simp only [saveConfigHandler, hparse, hcfg, hval]
  refine ⟨_, hroute, ?_, rfl, rfl⟩
  rw [hroute]
  simp only [Result.status, error_status w _ 400 hw, Option.getD_some]

/-- Witness of C4: the body "invalid" decodes, the derived configuration fails validation. -/
theorem saveConfig_validation_gate_witness :
    ∃ s1, saveConfigRoute demoEnv demoWeb ResponseWriter.fresh
          { BasicAuth := some ("u", "p"), Body := "invalid" } demoState
        = Result.done
            (ResponseWriter.fresh.Error ("配置验证失败: " ++ "invalid start_time") 400) s1 ∧
      (saveConfigRoute demoEnv demoWeb ResponseWriter.fresh
          { BasicAuth := some ("u", "p"), Body := "invalid" } demoState).status = some 400 ∧
      s1.disk = demoState.disk ∧ s1.saved = demoState.saved :=
  saveConfig_validation_gate demoEnv demoWeb ResponseWriter.fresh
    { BasicAuth := some ("u", "p"), Body := "invalid" } demoState demoCfg "invalid start_time"
    rfl (by decide) rfl rfl rfl

/-- C5, at the state right after startup: when a request passes the gate and its body decodes
without error, the `/saveConfig` route panics on the nil package variable `cfg`: no status is
written (neither 400, 500 nor 200), validation and save are not reached, and only the transfer
buffer has changed. -/
theorem saveConfig_after_startup_panics {α Disk : Type} (env : Env α Disk)
    (web : config.WebConfig) (r : Request) (z : α) (disk : Disk) (hadm : gateAdmits web r)
    (hparse : (env.Decode r.Body (WebConfig.zero z)).2 = none) :
    saveConfigRoute env web ResponseWriter.fresh r (State.startup z disk)
      = Result.panic ResponseWriter.fresh
          { cfg := none, webCfg := (env.Decode r.Body (WebConfig.zero z)).1, disk := disk,
            saved := [] } ∧
    (saveConfigRoute env web ResponseWriter.fresh r (State.startup z disk)).status = none := by
  have hroute : saveConfigRoute env web ResponseWriter.fresh r (State.startup z disk)
      = Result.panic ResponseWriter.fresh
          { cfg := none, webCfg := (env.Decode r.Body (WebConfig.zero z)).1, disk := disk,
            saved := [] } := by
    unfold saveConfigRoute
    rw [basicAuthWrap_admits web _ _ r _ hadm]
    simp only [saveConfigHandler, State.startup, hparse]
  exact ⟨hroute, by rw [hroute]; rfl⟩

/-- Witness of C5 at startup: a decodable body sent with the right credentials. -/
theorem saveConfig_after_startup_panics_witness :
    saveConfigRoute demoEnv demoWeb ResponseWriter.fresh
        { BasicAuth := some ("u", "p"), Body := "2026-01-01 08:00:00" }
        (State.startup () none)
      = Result.panic ResponseWriter.fresh
          { cfg := none,
            webCfg := (demoEnv.Decode "2026-01-01 08:00:00" (WebConfig.zero ())).1,
            disk := none, saved := [] } ∧
    (saveConfigRoute demoEnv demoWeb ResponseWriter.fresh
        { BasicAuth := some ("u", "p"), Body := "2026-01-01 08:00:00" }
        (State.startup () none)).status = none :=
  saveConfig_after_startup_panics demoEnv demoWeb
    { BasicAuth := some ("u", "p"), Body := "2026-01-01 08:00:00" } () none (by decide) rfl

/-- C6: when some port `q` at or above the configured port `P` is free (both within the range
of a Go `int`), the port search started at `P` ends, after exactly `p - P + 1` bind attempts,
with the least free port `p` at or above `P`: every port from `P` up to `p` excluded is
occupied, the loop is still running after any smaller number of attempts, and `p` is strictly
greater than `P` when `P` itself is occupied. -/
theorem probePort_least (free : Int → Bool) (P q : Int) (hlo : -2 ^ 63 ≤ P) (hPq : P ≤ q)
    (hq : q < 2 ^ 63) (hfree : free q = true) :
    ∃ p : Int, P ≤ p ∧ p ≤ q ∧ free p = true ∧ (∀ x, P ≤ x → x < p → free x = false) ∧
      (∀ fuel, (p - P).toNat < fuel → probePort free fuel P = some p) ∧
      (∀ fuel, fuel ≤ (p - P).toNat → probePort free fuel P = none) ∧
      (free P = false → P < p) := by
  obtain ⟨p, h1, h2, h3, h4, h5, h6⟩ :=
    probePort_search free q hq hfree (q - P).toNat P rfl hlo hPq
  refine ⟨p, h1, h2, h3, h4, h5, h6, ?_⟩
  intro hP
  by_contra hnot
  have hpe : p = P := by omega
  rw [hpe, hP] at h3
  exact absurd h3 (by decide)

/-- Witness of C6: ports 6688 and 6689 are occupied, every port from 6690 on is free. -/
theorem probePort_least_witness :
    probePort (fun x => decide (6690 ≤ x)) 3 6688 = some 6690 ∧
    ∃ p : Int, (6688 : Int) ≤ p ∧ p ≤ 6700 ∧ (fun x => decide (6690 ≤ x)) p = true ∧
      (∀ x, (6688 : Int) ≤ x → x < p → (fun x => decide (6690 ≤ x)) x = false) ∧
      (∀ fuel, (p - 6688).toNat < fuel →
        probePort (fun x => decide (6690 ≤ x)) fuel 6688 = some p) ∧
      (∀ fuel, fuel ≤ (p - 6688).toNat →
        probePort (fun x => decide (6690 ≤ x)) fuel 6688 = none) ∧
      ((fun x => decide (6690 ≤ x)) (6688 : Int) = false → 6688 < p) :=
  ⟨by decide,
   probePort_least (fun x => decide (6690 ≤ x)) 6688 6700 (by decide) (by decide) (by decide)
     (by decide)⟩

/-- C9: assuming that loading after a successful save returns the configuration saved, when a
`/saveConfig` request whose decoded course list is `L` (two-element slices with pairwise
distinct keys) is answered 200, a `/getConfig` request that passes the gate right afterwards is
answered 200 with the JSON encoding of a transfer structure whose course field is `L`; in
particular encoding the decoded `L` gives `L` back. -/
theorem save_then_get_course {α Disk : Type} (env : Env α Disk) (web : config.WebConfig)
    (r1 r2 : Request) (s : State α Disk) (L : List (List String))
    (hload : ∀ c d, (env.SaveConfig c d).2 = none →
      env.LoadConfig (env.SaveConfig c d).1 = (some c, none))
    (hlen : ∀ item ∈ L, item.length = 2) (hkeys : (L.map List.head?).Nodup)
    (hL : (env.Decode r1.Body s.webCfg).1.Course = L)
    (h200 : (saveConfigRoute env web ResponseWriter.fresh r1 s).status = some 200)
    (hadm : gateAdmits web r2) :
    orderedMapToArrayList (arrayListToOrderedMap L) = some L ∧
    ∃ w1 s1 w2 s2 v,
      saveConfigRoute env web ResponseWriter.fresh r1 s = Result.done w1 s1 ∧
      getConfigRoute env web ResponseWriter.fresh r2 s1 = Result.done w2 s2 ∧
      w2.status = some 200 ∧ w2.body = [Chunk.json v] ∧ v.Course = L := by
  have hcodec := encode_decode L hlen hkeys
  refine ⟨hcodec, ?_⟩
  by_cases hadm1 : gateAdmits web r1
  · have hroute1 : saveConfigRoute env web ResponseWriter.fresh r1 s
        = saveConfigHandler env ResponseWriter.fresh r1 s :=
      basicAuthWrap_admits web _ _ r1 s hadm1
    rw [hroute1] at h200
    obtain ⟨cfg, _, _, _, hs, hres⟩ := saveConfigHandler_ok env ResponseWriter.fresh r1 s rfl h200
    rw [hL] at hs hres
    have hl := hload _ _ hs
    generalize hcfg1 : updateCfg cfg (env.Decode r1.Body s.webCfg).1 (arrayListToOrderedMap L)
      = cfg1 at hs hres hl
    have hcourse : cfg1.Course = some (arrayListToOrderedMap L) := by rw [← hcfg1]; rfl
    have hget := getConfigHandler_loaded env ResponseWriter.fresh r2
      { cfg := some cfg1, webCfg := (env.Decode r1.Body s.webCfg).1,
        disk := (env.SaveConfig cfg1 s.disk).1, saved := s.saved ++ [cfg1] }
      cfg1 _ L hl hcourse hcodec
    have hroute2 := basicAuthWrap_admits web (getConfigHandler env) ResponseWriter.fresh r2
      { cfg := some cfg1, webCfg := (env.Decode r1.Body s.webCfg).1,
        disk := (env.SaveConfig cfg1 s.disk).1, saved := s.saved ++ [cfg1] } hadm
    exact ⟨_, _, _, _, toWebConfig cfg1 L, hroute1.trans hres, hroute2.trans hget, rfl, rfl, rfl⟩
  · have hden := basicAuthWrap_denies web (saveConfigHandler env)
      (ResponseWriter.fresh : ResponseWriter α) r1 s hadm1
    unfold saveConfigRoute at h200
    rw [hden] at h200
    simp only [Result.status, unauthorized_fresh_status] at h200
    exact absurd h200 (by decide)

/-- Witness of C9 on the course list COURSE1/A, COURSE2/B. -/
theorem save_then_get_course_witness :
    orderedMapToArrayList (arrayListToOrderedMap [["COURSE1", "A"], ["COURSE2", "B"]])
      = some [["COURSE1", "A"], ["COURSE2", "B"]] ∧
    ∃ w1 s1 w2 s2 v,
      saveConfigRoute demoEnv demoWeb ResponseWriter.fresh
        { BasicAuth := some ("u", "p"), Body := "2026-02-02 08:00:00" } demoState
          = Result.done w1 s1 ∧
      getConfigRoute demoEnv demoWeb ResponseWriter.fresh
        { BasicAuth := some ("u", "p"), Body := "" } s1 = Result.done w2 s2 ∧
      w2.status = some 200 ∧ w2.body = [Chunk.json v] ∧
      v.Course = [["COURSE1", "A"], ["COURSE2", "B"]] :=
  save_then_get_course demoEnv demoWeb
    { BasicAuth := some ("u", "p"), Body := "2026-02-02 08:00:00" }
    { BasicAuth := some ("u", "p"), Body := "" } demoState
    [["COURSE1", "A"], ["COURSE2", "B"]]
    (fun _ _ _ => rfl) (by decide) (by decide) rfl (by decide) (by decide)

/-- C10, at two rejected requests under the policy username "u", password "p": for the
credentials ("x", "p") the gate evaluates one constant-time comparison, of the username only,
the short-circuit `||` skipping the password; for the credentials ("u", "x") it evaluates two;
both requests get the 401 response. -/
theorem authDenied_comparisons_differ :
    authDenied "u" "p" { BasicAuth := some ("x", "p"), Body := "" }
      = (true, [(bytes "x", bytes "u")]) ∧
    authDenied "u" "p" { BasicAuth := some ("u", "x"), Body := "" }
      = (true, [(bytes "u", bytes "u"), (bytes "x", bytes "p")]) ∧
    basicAuthWrap demoWeb demoNext ResponseWriter.fresh
        { BasicAuth := some ("x", "p"), Body := "" } 0
      = Result.done (unauthorized ResponseWriter.fresh) 0 ∧
    basicAuthWrap demoWeb demoNext ResponseWriter.fresh
        { BasicAuth := some ("u", "x"), Body := "" } 0
      = Result.done (unauthorized ResponseWriter.fresh) 0 :=
  ⟨by decide, by decide,
   basicAuthWrap_denies demoWeb demoNext ResponseWriter.fresh _ 0 (by decide),
   basicAuthWrap_denies demoWeb demoNext ResponseWriter.fresh _ 0 (by decide)⟩
